/-
  Verification of the slop-detector core (source model extraction +
  dependency graph engine) against its natural-language specification.

  The Python source is shallowly embedded: pure functions become Lean
  functions, the mutable `GraphBuilder` becomes explicit state passing, and
  fallible operations return `Except`/`Option`.  External libraries
  (`networkx.simple_cycles`, Python's `ast`, `esprima`) are modelled from
  their documented behaviour at clearly marked points; everything else is
  translated from the repository sources
  (`slop_detector/graph/builder.py`, `slop_detector/graph/analyzer.py`,
  `slop_detector/parsers/base.py`, `slop_detector/parsers/python_parser.py`,
  `slop_detector/parsers/javascript_parser.py`).

  All string manipulation is done on `List Char` with structural recursion
  so that every definition evaluates by kernel reduction.  Lean `String` is
  a wrapper around `List Char`, so this is a faithful model of Python `str`
  for the ASCII inputs the claims are about.
-/
import Mathlib

/-! ## Character-list string utilities (Python `str` operations) -/

/-- Python `str.split(sep)` for a single-character separator, on `List Char`.
`splitChar sep []` is `[[]]`, matching Python's `"".split(sep) == ['']`. -/
def splitChar (sep : Char) : List Char → List (List Char)
  | [] => [[]]
  | c :: rest =>
    let r := splitChar sep rest
    if c = sep then [] :: r
    else
      match r with
      | h :: t => (c :: h) :: t
      | [] => [[c]]

/-- Boolean list-prefix test (Python `str.startswith`). -/
def isPfx : List Char → List Char → Bool
  | [], _ => true
  | _ :: _, [] => false
  | a :: as_, b :: bs => a = b && isPfx as_ bs

/-- Boolean substring test (Python's `needle in haystack` on strings). -/
def isSub (p : List Char) : List Char → Bool
  | [] => isPfx p []
  | c :: rest => isPfx p (c :: rest) || isSub p rest

/-- Boolean list-suffix test (Python `str.endswith`). -/
def isSfx (p s : List Char) : Bool := isPfx p.reverse s.reverse

/-- The claim-side notion of "occurs as a substring". -/
def Occurs (p s : List Char) : Prop := ∃ l r, s = l ++ p ++ r

/-- Python's whitespace set for `str.strip()` (ASCII part). -/
def pyIsSpace (c : Char) : Bool :=
  c = ' ' || c = '\t' || c = '\n' || c = '\x0d' ||
    c = Char.ofNat 11 || c = Char.ofNat 12

/-- Python `str.strip()` on `List Char`. -/
def pyStrip (s : List Char) : List Char :=
  ((s.dropWhile pyIsSpace).reverse.dropWhile pyIsSpace).reverse

/-- Python `str.replace(".py", "")`: delete every (non-overlapping,
left-to-right) occurrence of `.py`. -/
def removeDotPy : List Char → List Char
  | '.' :: 'p' :: 'y' :: rest => removeDotPy rest
  | c :: rest => c :: removeDotPy rest
  | [] => []

/-- Replace every `.` by `/` (Python `module.replace('.', os.sep)` with
`os.sep = '/'`). -/
def dotsToSlashes (s : List Char) : List Char :=
  s.map fun c => if c = '.' then '/' else c

/-- Join a list of path/word components with a single-character separator
(Python `sep.join(parts)`). -/
def joinWith (sep : Char) : List (List Char) → List Char
  | [] => []
  | [p] => p
  | p :: rest => p ++ sep :: joinWith sep rest

/-- `os.path.dirname` on `List Char` (relative POSIX paths): everything
before the last `/`, `[]` when there is no `/`. -/
def dirnameCL (s : List Char) : List Char :=
  joinWith '/' (splitChar '/' s).dropLast

/-- `os.path.basename` on `List Char`: everything after the last `/`. -/
def basenameCL (s : List Char) : List Char :=
  ((splitChar '/' s).getLast?).getD []

/-- `os.path.join(a, b)` for relative POSIX paths: `b` if it is absolute,
otherwise `a ++ "/" ++ b` (with no duplicated slash, and just `b` when `a`
is empty). -/
def joinPathCL (a b : List Char) : List Char :=
  if isPfx ['/'] b then b
  else if a = [] then b
  else if isSfx ['/'] a then a ++ b
  else a ++ '/' :: b

/-! String-level wrappers used by the embedded source functions. -/

def sSplit (sep : Char) (s : String) : List String :=
  (splitChar sep s.data).map String.mk

def sStartsWith (p s : String) : Bool := isPfx p.data s.data

def sEndsWith (p s : String) : Bool := isSfx p.data s.data

def sContains (hay needle : String) : Bool := isSub needle.data hay.data

def sStrip (s : String) : String := String.mk (pyStrip s.data)

def sJoinDots (parts : List String) : String :=
  String.mk (joinWith '.' (parts.map String.data))

def sDirname (s : String) : String := String.mk (dirnameCL s.data)

def sBasename (s : String) : String := String.mk (basenameCL s.data)

def sJoinPath (a b : String) : String := String.mk (joinPathCL a.data b.data)

def sRemoveDotPy (s : String) : String := String.mk (removeDotPy s.data)

def sDotsToSlashes (s : String) : String := String.mk (dotsToSlashes s.data)

/-! ## The shared source model (`parsers/base.py`) -/

/-- `EntityType` from `parsers/base.py`. -/
inductive EntityType where
  | function
  | classT
  | method
  | variable
  | importT
deriving DecidableEq, Repr

/-- `Comment` from `parsers/base.py`. -/
structure Comment where
  text : String
  line : Nat
  is_docstring : Bool := false
  parent_entity : Option String := none
deriving DecidableEq, Repr

/-- `Import` from `parsers/base.py`. -/
structure Import where
  module : String
  names : List String
  line : Nat
  is_star_import : Bool := false
  aliasName : Option String := none
deriving DecidableEq, Repr

/-- `Definition` from `parsers/base.py`. -/
structure Definition where
  name : String
  type : EntityType
  line_start : Nat
  line_end : Nat
  parent : Option String := none
  calls : List String := []
  nesting_depth : Nat := 0
  docstring : Option String := none
  parameters : List String := []
deriving DecidableEq, Repr

/-- `ParsedFile` from `parsers/base.py`. -/
structure ParsedFile where
  file_path : String
  language : String
  imports : List Import := []
  definitions : List Definition := []
  comments : List Comment := []
  lines_of_code : Nat := 0
  raw_content : String := ""
deriving DecidableEq, Repr

/-- `BaseParser._count_lines`: number of lines that are non-empty after
stripping and whose stripped form does not start with `#` or `//`. -/
def countLines (content : String) : Nat :=
  ((sSplit '\n' content).filter fun line =>
    !(sStrip line).data.isEmpty &&
      !(sStartsWith "#" (sStrip line) || sStartsWith "//" (sStrip line))).length

/-! ## Directed graphs (the fragment of `networkx.DiGraph` the code uses)

A `networkx.DiGraph` keeps an insertion-ordered node set and edge set with
no parallel edges; `add_node` and `add_edge` are idempotent and `add_edge`
inserts missing endpoints.  Node/edge attributes other than the mutable
`in_cycle` flag are not observed by any claim and are not modelled. -/

structure DiGraph where
  nodes : List String
  edges : List (String × String)
deriving DecidableEq, Repr

def DiGraph.empty : DiGraph := ⟨[], []⟩

def DiGraph.hasNode (g : DiGraph) (n : String) : Bool := g.nodes.contains n

def DiGraph.hasEdge (g : DiGraph) (e : String × String) : Bool :=
  g.edges.contains e

def DiGraph.addNode (g : DiGraph) (n : String) : DiGraph :=
  if g.hasNode n then g else { g with nodes := g.nodes ++ [n] }

def DiGraph.addEdge (g : DiGraph) (a b : String) : DiGraph :=
  let g := (g.addNode a).addNode b
  if g.hasEdge (a, b) then g else { g with edges := g.edges ++ [(a, b)] }

/-- `networkx` `in_degree`: number of edges whose target is `n`. -/
def DiGraph.inDegree (g : DiGraph) (n : String) : Nat :=
  (g.edges.filter fun e => e.2 = n).length

/-! ## Graph analyzer (`graph/analyzer.py`) -/

/-- Cyclic edge chain: `chainFrom g first prev l` holds when the edges
`prev → l₀ → l₁ → ... → first` all exist in `g`. -/
def chainFrom (g : DiGraph) (first : String) (prev : String) : List String → Bool
  | [] => g.hasEdge (prev, first)
  | y :: ys => g.hasEdge (prev, y) && chainFrom g first y ys

/-- A nonempty node list traversing existing edges and closing back on its
head. -/
def isCycleList (g : DiGraph) : List String → Bool
  | [] => false
  | x :: xs => chainFrom g x x xs

/-- Claim-side definition: an elementary cycle of `g` — a nonempty list of
distinct graph nodes whose consecutive edges (including the closing edge)
all exist. -/
def IsElemCycle (g : DiGraph) (c : List String) : Prop :=
  c ≠ [] ∧ c.Nodup ∧ (∀ x ∈ c, x ∈ g.nodes) ∧ isCycleList g c = true

instance (g : DiGraph) (c : List String) : Decidable (IsElemCycle g c) :=
  inferInstanceAs (Decidable (_ ∧ _ ∧ _ ∧ _))

/-- Canonical representative: head has the smallest position in `g.nodes`
among the cycle's members.  Each elementary cycle has exactly one canonical
rotation, which is the one the enumeration returns. -/
def headIsMin (g : DiGraph) (c : List String) : Bool :=
  c.all fun y => g.nodes.indexOf (c.headD "") ≤ g.nodes.indexOf y

/-- All duplicate-free lists drawn from `pool`, bounded in length by the
fuel (used with fuel `pool.length`, which covers every such list). -/
def permsUpTo (pool : List String) : Nat → List (List String)
  | 0 => [[]]
  | Nat.succ n => [] :: pool.flatMap fun x => (permsUpTo (pool.erase x) n).map (x :: ·)

/-- Model of `networkx.simple_cycles` (external library; modelled from its
documented behaviour: it yields every elementary cycle of the digraph
exactly once, in some rotation).  The model enumerates, for every
subset-permutation of the node list, the canonical elementary cycles. -/
def simpleCycles (g : DiGraph) : List (List String) :=
  (permsUpTo g.nodes g.nodes.length).filter fun c =>
    decide (IsElemCycle g c) && headIsMin g c

/-- Length order used to model Python's stable `cycles.sort(key=len)`.
(Only sortedness and the multiset of cycles are observed by any claim, so a
stable insertion sort is an adequate model of Timsort.) -/
def lenLE (a b : List String) : Prop := a.length ≤ b.length

instance : DecidableRel lenLE := fun _ _ => Nat.decLe _ _

instance : IsTotal (List String) lenLE :=
  ⟨fun a b => Nat.le_total a.length b.length⟩

instance : IsTrans (List String) lenLE :=
  ⟨fun _ _ _ h h' => Nat.le_trans h h'⟩

/-- `GraphAnalyzer.find_circular_dependencies`: all simple cycles, with the
length-1 self-loops removed, sorted shortest-first. -/
def findCircularDependencies (g : DiGraph) : List (List String) :=
  List.insertionSort lenLE ((simpleCycles g).filter fun c => 1 < c.length)

/-- `GraphAnalyzer.find_isolated_nodes`. -/
def findIsolatedNodes (g : DiGraph) : List String :=
  g.nodes.filter fun n =>
    g.inDegree n = 0 && (g.edges.filter fun e => e.1 = n).length = 0

/-- `GraphAnalyzer.find_stranded_nodes`: in-degree 0 and no entry-point
fragment occurs in the node id (Python `ep in node` substring test). -/
def findStrandedNodes (g : DiGraph) (entry_points : List String) : List String :=
  g.nodes.filter fun n =>
    g.inDegree n = 0 && !(entry_points.any fun ep => sContains n ep)

/-! ## `GraphAnalyzer.mark_cycles` and the in-cycle flags

Attribute dictionaries are modelled as association lists (first match wins,
set replaces in place or appends), matching Python dict semantics; an
absent key models an attribute that was never written. -/

def flagLookup {α : Type} [DecidableEq α] : List (α × Bool) → α → Option Bool
  | [], _ => none
  | p :: rest, k => if p.1 = k then some p.2 else flagLookup rest k

/-- Dict assignment: replace the binding in place when the key is present
(keeping its insertion position), otherwise append. -/
def flagSet {α : Type} [DecidableEq α] : List (α × Bool) → α → Bool → List (α × Bool)
  | [], k, b => [(k, b)]
  | p :: rest, k, b => if p.1 = k then (k, b) :: rest else p :: flagSet rest k b

/-- A graph together with its `in_cycle` node and edge attributes. -/
structure FlaggedGraph where
  graph : DiGraph
  nodeFlag : List (String × Bool)
  edgeFlag : List ((String × String) × Bool)
deriving DecidableEq, Repr

/-- The consecutive pairs `(cycle[i], cycle[(i+1) % len(cycle)])` that the
edge-marking loop of `mark_cycles` visits, for one cycle. -/
def cyclePairs (c : List String) : List (String × String) :=
  (List.range c.length).map fun i => (c.getD i "", c.getD ((i + 1) % c.length) "")

/-- All edge-marking updates of one `mark_cycles` run: every consecutive
pair of every returned cycle that is an existing edge (`has_edge` guard). -/
def cycleEdgePairs (g : DiGraph) : List (String × String) :=
  ((findCircularDependencies g).flatMap cyclePairs).filter fun e => g.hasEdge e

/-- The nodes appearing in some returned cycle (`nodes_in_cycles`). -/
def cycleNodes (g : DiGraph) : List String :=
  (findCircularDependencies g).flatMap id

/-- `GraphAnalyzer.mark_cycles`: recompute the cycle list, write
`in_cycle = (node in nodes_in_cycles)` on every node, and set
`in_cycle = True` on every consecutive edge of every cycle.  (Node flags are
fully overwritten; edge flags are only ever set to `True`.) -/
def markCycles (fg : FlaggedGraph) : FlaggedGraph :=
  { graph := fg.graph
    nodeFlag := fg.graph.nodes.map fun n => (n, (cycleNodes fg.graph).contains n)
    edgeFlag := (cycleEdgePairs fg.graph).foldl (fun l e => flagSet l e true) fg.edgeFlag }

/-! ## Graph builder (`graph/builder.py`) -/

/-- `GraphBuilder._get_relative_path`: `Path(file_path).relative_to(root)`
(modelled segment-wise for normalised relative POSIX paths), falling back
to `os.path.basename(file_path)` when `file_path` is not under `root`. -/
def getRelativePath (root fp : String) : String :=
  let rparts := (splitChar '/' root.data).filter fun p => p ≠ [] && p ≠ ['.']
  let fparts := (splitChar '/' fp.data).filter fun p => p ≠ [] && p ≠ ['.']
  if rparts.isPrefixOf fparts then
    let rest := fparts.drop rparts.length
    if rest.isEmpty then "." else String.mk (joinWith '/' rest)
  else sBasename fp

/-- String-keyed dictionary with Python `dict` semantics: assignment
overwrites in place, lookup returns the latest value. -/
def dictSet {α : Type} : List (String × α) → String → α → List (String × α)
  | [], k, v => [(k, v)]
  | p :: rest, k, v => if p.1 = k then (k, v) :: rest else p :: dictSet rest k v

def dictGet {α : Type} : List (String × α) → String → Option α
  | [], _ => none
  | p :: rest, k => if p.1 = k then some p.2 else dictGet rest k

def dictHas {α : Type} (m : List (String × α)) (k : String) : Bool :=
  m.any fun p => p.1 = k

/-- One file's contribution to `GraphBuilder._create_module_mapping`. -/
def moduleMapStep (root : String) (m : List (String × String)) (pf : ParsedFile) :
    List (String × String) :=
  let rel := getRelativePath root pf.file_path
  if pf.language = "python" then
    let module_name := sJoinDots ((splitChar '/' (removeDotPy rel.data)).map String.mk)
    let m := dictSet m module_name rel
    let filename := sRemoveDotPy (sBasename rel)
    if dictHas m filename then m else dictSet m filename rel
  else
    let module_path :=
      match ([".js", ".jsx", ".ts", ".tsx"].find? fun ext => sEndsWith ext rel) with
      | some ext => String.mk (rel.data.take (rel.data.length - ext.data.length))
      | none => rel
    let m := dictSet m module_path rel
    let m := dictSet m (String.mk ('.' :: '/' :: module_path.data)) rel
    let filename := sBasename module_path
    if dictHas m filename then m else dictSet m filename rel

/-- `GraphBuilder._create_module_mapping`. -/
def createModuleMapping (root : String) (pfs : List ParsedFile) :
    List (String × String) :=
  pfs.foldl (moduleMapStep root) []

/-- The suffixes probed by the relative-import branch of `_resolve_import`
(first hit wins, mirroring the `break`). -/
def relExtensions : List String :=
  ["", ".py", ".js", ".jsx", ".ts", ".tsx", "/index.js", "/index.ts"]

/-- `GraphBuilder._resolve_import`. -/
def resolveImport (root module source_file : String)
    (module_map : List (String × String)) (pfs : List ParsedFile) : List String :=
  match dictGet module_map module with
  | some r => [r]
  | none =>
    if sStartsWith "." module then
      let source_dir := sDirname (getRelativePath root source_file)
      let parts := sSplit '/' module
      let current_dir := parts.foldl
        (fun d part =>
          if part = "." then d
          else if part = ".." then sDirname d
          else sJoinPath d part) source_dir
      match (relExtensions.find? fun ext =>
          dictHas module_map (String.mk (current_dir.data ++ ext.data))) with
      | some ext =>
        match dictGet module_map (String.mk (current_dir.data ++ ext.data)) with
        | some r => [r]
        | none => []
      | none => []
    else
      pfs.filterMap fun pf =>
        let rel := getRelativePath root pf.file_path
        if isSub (dotsToSlashes module.data) rel.data then some rel else none

/-- `GraphBuilder.build_file_graph` as a pure function of the root directory
and the parsed-file collection (the method clears the stored graph before
rebuilding, so its content depends on nothing else).  Note: edges are added
whenever the resolved target is a node — there is no `source ≠ target`
guard. -/
def buildFileGraph (root : String) (pfs : List ParsedFile) : DiGraph :=
  let module_map := createModuleMapping root pfs
  let g := pfs.foldl (fun g pf => g.addNode (getRelativePath root pf.file_path))
    DiGraph.empty
  pfs.foldl
    (fun g pf =>
      let source := getRelativePath root pf.file_path
      pf.imports.foldl
        (fun g imp =>
          (resolveImport root imp.module pf.file_path module_map pfs).foldl
            (fun g target => if g.hasNode target then g.addEdge source target else g)
            g)
        g)
    g

/-- The unique entity id `rel_path::[parent.]name` used by
`build_entity_graph`. -/
def entityId (rel : String) (d : Definition) : String :=
  match d.parent with
  | some p => String.mk (rel.data ++ ':' :: ':' :: p.data ++ '.' :: d.name.data)
  | none => String.mk (rel.data ++ ':' :: ':' :: d.name.data)

/-- The name index built by the first pass of `build_entity_graph`: each
definition is recorded under its bare name (and, for methods, also under
`parent.name`); a later definition with the same key overwrites an earlier
one (last write wins). -/
def entityMapOf (root : String) (pfs : List ParsedFile) :
    List (String × (String × Definition)) :=
  pfs.foldl
    (fun m pf =>
      let rel := getRelativePath root pf.file_path
      pf.definitions.foldl
        (fun m d =>
          let m := dictSet m d.name (rel, d)
          match d.parent with
          | some p => dictSet m (String.mk (p.data ++ '.' :: d.name.data)) (rel, d)
          | none => m)
        m)
    []

/-- `GraphBuilder.build_entity_graph`.  Edges are added for each recorded
call that resolves through the name index, guarded by
`target_id in graph and source_id != target_id` (so entity self-edges are
suppressed). -/
def buildEntityGraph (root : String) (pfs : List ParsedFile) : DiGraph :=
  let entity_map := entityMapOf root pfs
  let g := pfs.foldl
    (fun g pf =>
      let rel := getRelativePath root pf.file_path
      pf.definitions.foldl (fun g d => g.addNode (entityId rel d)) g)
    DiGraph.empty
  pfs.foldl
    (fun g pf =>
      let rel := getRelativePath root pf.file_path
      pf.definitions.foldl
        (fun g d =>
          let source_id := entityId rel d
          d.calls.foldl
            (fun g call =>
              match dictGet entity_map call with
              | some (target_file, target_defn) =>
                let target_id := entityId target_file target_defn
                if g.hasNode target_id && source_id ≠ target_id then
                  g.addEdge source_id target_id
                else g
              | none => g)
            g)
        g)
    g

/-! ### Builder object state (`GraphBuilder.__init__` + aliasing)

`GraphBuilder` holds one mutable `nx.DiGraph` per graph kind; each build
call `clear()`s that same object, repopulates it and returns it.  The
returned value therefore aliases the stored field: after a later build
call, the object a caller received earlier holds the later call's content.
The state is made explicit: `file_graph` is the current content of the one
file-graph object, and `buildFileGraphB` returns the content the caller's
reference observes at return time. -/

structure GraphBuilderS where
  root_dir : String
  file_graph : DiGraph
  entity_graph : DiGraph
deriving DecidableEq, Repr

def GraphBuilderS.init (root : String) : GraphBuilderS :=
  ⟨root, DiGraph.empty, DiGraph.empty⟩

def buildFileGraphB (b : GraphBuilderS) (pfs : List ParsedFile) :
    GraphBuilderS × DiGraph :=
  let g := buildFileGraph b.root_dir pfs
  ({ b with file_graph := g }, g)

def buildEntityGraphB (b : GraphBuilderS) (pfs : List ParsedFile) :
    GraphBuilderS × DiGraph :=
  let g := buildEntityGraph b.root_dir pfs
  ({ b with entity_graph := g }, g)

/-! ## Python parser (`parsers/python_parser.py`)

The parser runs on the output of the external `ast` module.  The AST is
modelled by the statement/expression subset the claims exercise (imports,
`from … import …`, function and class definitions, `return`, expression
statements, attribute/call expressions, string literals); `ast.parse` is an
oracle parameter returning such a tree or `none` for the `SyntaxError`
case.  The modelled subset contains none of the nesting-increasing
statements (`if`/`for`/`while`/`with`/`try`), so `_calculate_nesting` is
constantly `0` on it and is embedded as such. -/

mutual
inductive PyExpr where
  | name (id : String)
  | attr (value : PyExpr) (attrName : String)
  | call (func : PyExpr) (args : PyExprList)
  | strLit (s : String)
inductive PyExprList where
  | nil
  | cons (e : PyExpr) (rest : PyExprList)
end

mutual
inductive PyStmt where
  | importS (line : Nat) (names : List (String × Option String))
  | importFrom (line : Nat) (module : Option String) (names : List String)
  | functionDef (line endLine : Nat) (name : String) (args : List String)
      (body : PyStmtList)
  | classDef (line endLine : Nat) (name : String) (body : PyStmtList)
  | ret (e : PyExpr)
  | exprStmt (e : PyExpr)
  | passS
inductive PyStmtList where
  | nil
  | cons (s : PyStmt) (rest : PyStmtList)
end

/- `PythonParser._extract_imports` (the `ast.walk` collection restricted to
`Import`/`ImportFrom` nodes).  An `ImportFrom` with a falsy `module` —
exactly what `from . import b` produces (`module is None`) — is skipped. -/
mutual
def pyImportsStmt : PyStmt → List Import
  | .importS line names =>
    names.map fun p =>
      { module := p.1, names := [p.1], line := line, aliasName := p.2 }
  | .importFrom line module names =>
    match module with
    | some m =>
      if m.data.isEmpty then []
      else [{ module := m, names := names, line := line,
              is_star_import := names.contains "*" }]
    | none => []
  | .functionDef _ _ _ _ body => pyImportsStmts body
  | .classDef _ _ _ body => pyImportsStmts body
  | .ret _ => []
  | .exprStmt _ => []
  | .passS => []
def pyImportsStmts : PyStmtList → List Import
  | .nil => []
  | .cons s rest => pyImportsStmt s ++ pyImportsStmts rest
end

/-- The call target recorded for one `ast.Call` node: a bare `Name` gives
the name, an `Attribute` over a `Name` gives `object.method`, any other
`Attribute` collapses to its terminal attribute, anything else records
nothing. -/
def callTarget : PyExpr → List String
  | .name id => [id]
  | .attr (.name oid) a => [String.mk (oid.data ++ '.' :: a.data)]
  | .attr _ a => [a]
  | _ => []

/- `DefinitionVisitor._extract_calls`: walk every node below a definition
and record the target of each `Call`. -/
mutual
def pyCallsExpr : PyExpr → List String
  | .name _ => []
  | .strLit _ => []
  | .attr v _ => pyCallsExpr v
  | .call f args => callTarget f ++ pyCallsExpr f ++ pyCallsExprs args
def pyCallsExprs : PyExprList → List String
  | .nil => []
  | .cons e rest => pyCallsExpr e ++ pyCallsExprs rest
end

mutual
def pyCallsStmt : PyStmt → List String
  | .ret e => pyCallsExpr e
  | .exprStmt e => pyCallsExpr e
  | .functionDef _ _ _ _ body => pyCallsStmts body
  | .classDef _ _ _ body => pyCallsStmts body
  | .importS _ _ => []
  | .importFrom _ _ _ => []
  | .passS => []
def pyCallsStmts : PyStmtList → List String
  | .nil => []
  | .cons s rest => pyCallsStmt s ++ pyCallsStmts rest
end

/-- `ast.get_docstring`: the string constant heading a body, if any. -/
def pyGetDocstring : PyStmtList → Option String
  | .cons (.exprStmt (.strLit s)) _ => some s
  | _ => none

/- `PythonParser._extract_definitions` (the `DefinitionVisitor`): a class
is recorded (with the enclosing class, if any, as parent) and its body is
visited with the class as the current parent; a function is recorded (as a
method when inside a class) with its calls, docstring and parameters, and
its body is not visited for further definitions (nested functions are not
separately recorded — `generic_visit` is commented out in the source).
`nesting_depth` is `0` on the modelled statement subset, which contains no
nesting-increasing statement. -/
mutual
def pyDefsStmt (currentClass : Option String) : PyStmt → List Definition
  | .classDef line endLine nm body =>
    { name := nm, type := EntityType.classT, line_start := line,
      line_end := endLine, parent := currentClass,
      docstring := pyGetDocstring body } :: pyDefsStmts (some nm) body
  | .functionDef line endLine nm args body =>
    [{ name := nm,
       type := if currentClass.isSome then EntityType.method
         else EntityType.function,
       line_start := line, line_end := endLine, parent := currentClass,
       calls := pyCallsStmts body, nesting_depth := 0,
       docstring := pyGetDocstring body, parameters := args }]
  | .importS _ _ => []
  | .importFrom _ _ _ => []
  | .ret _ => []
  | .exprStmt _ => []
  | .passS => []
def pyDefsStmts (currentClass : Option String) : PyStmtList → List Definition
  | .nil => []
  | .cons s rest => pyDefsStmt currentClass s ++ pyDefsStmts currentClass rest
end

/-- The `#`-comment pass of `PythonParser._extract_comments`: every line
whose stripped form starts with `#` yields a comment holding the stripped
text after the marker. -/
def pyHashComments (content : String) : List Comment :=
  (sSplit '\n' content).enum.filterMap fun p =>
    if sStartsWith "#" (sStrip p.2) then
      some { text := sStrip (String.mk ((sStrip p.2).data.drop 1)),
             line := p.1 + 1, is_docstring := false }
    else none

/- The docstring pass of `PythonParser._extract_comments` over
function/class definitions. -/
mutual
def pyDocCommentsStmt : PyStmt → List Comment
  | .functionDef line _ nm _ body =>
    (match pyGetDocstring body with
     | some d => [{ text := d, line := line, is_docstring := true,
                    parent_entity := some nm }]
     | none => []) ++ pyDocCommentsStmts body
  | .classDef line _ nm body =>
    (match pyGetDocstring body with
     | some d => [{ text := d, line := line, is_docstring := true,
                    parent_entity := some nm }]
     | none => []) ++ pyDocCommentsStmts body
  | .importS _ _ => []
  | .importFrom _ _ _ => []
  | .ret _ => []
  | .exprStmt _ => []
  | .passS => []
def pyDocCommentsStmts : PyStmtList → List Comment
  | .nil => []
  | .cons s rest => pyDocCommentsStmt s ++ pyDocCommentsStmts rest
end

/-- `PythonParser._extract_comments`: `#` comments, then the module
docstring (line 1, no parent), then the definition docstrings. -/
def pyExtractComments (content : String) (tree : PyStmtList) : List Comment :=
  pyHashComments content ++
    ((match pyGetDocstring tree with
      | some d => [{ text := d, line := 1, is_docstring := true,
                     parent_entity := none }]
      | none => []) ++ pyDocCommentsStmts tree)

/-- `PythonParser.parse_file` on already-read content: build the base
record (raw text and line count), then try the AST extraction; on a
`SyntaxError` (`astParse content = none`) keep the base record's empty
imports/definitions/comments. -/
def pythonParseFile (astParse : String → Option PyStmtList)
    (path content : String) : ParsedFile :=
  let base : ParsedFile :=
    { file_path := path, language := "python", raw_content := content,
      lines_of_code := countLines content }
  match astParse content with
  | none => base
  | some tree =>
    { base with
      imports := pyImportsStmts tree
      definitions := pyDefsStmts none tree
      comments := pyExtractComments content tree }

/-! ### `BaseParser._read_file` over a file-system model

`open` failures (missing file, permission) raise `OSError`, which
`_read_file` does not catch; a `UnicodeDecodeError` on the UTF-8 read is
caught and the file is reread as Latin-1, which decodes any byte string. -/

inductive FileOutcome where
  | missing
  | utf8Error (latin1Text : String)
  | text (s : String)
deriving DecidableEq, Repr

/-- `BaseParser._read_file`. -/
def readFileModel (fs : String → FileOutcome) (path : String) :
    Except Unit String :=
  match fs path with
  | .missing => .error ()
  | .utf8Error latin => .ok latin
  | .text s => .ok s

/-- `PythonParser.parse_file` including the `_read_file` call: an error
from `_read_file` propagates to the caller. -/
def pythonParseFileFS (fs : String → FileOutcome)
    (astParse : String → Option PyStmtList) (path : String) :
    Except Unit ParsedFile :=
  match readFileModel fs path with
  | .error e => .error e
  | .ok content => .ok (pythonParseFile astParse path content)

/-! ## JavaScript/TypeScript parser (`parsers/javascript_parser.py`),
claim C5

`esprima.parseModule` is external; its result is abstracted as either a
plain-`dict` tree or a non-`dict` (node object) tree, with the behaviour
of the repository's extraction helpers on it given by an oracle where it
depends on the library's data shapes.  Two facts about the helpers are
fixed by their own source:

* `_extract_imports` / `_extract_definitions` wrap their whole traversal
  in `isinstance(node, dict)`, so on a non-`dict` tree they return `[]`
  and cannot raise;
* `_extract_comments` touches the tree only under
  `hasattr(tree, 'comments')`, which is `False` for a plain `dict`, so on
  a `dict` tree it returns `[]` and cannot raise.

The regex fallbacks `_extract_imports_regex` / `_extract_comments_regex`
are total functions of the content (fixed patterns, pure string work);
their output values are irrelevant to this claim and are oracle fields. -/

inductive EsTree where
  | dict (i : Nat)
  | obj (i : Nat)
deriving DecidableEq, Repr

structure EsOracle where
  parseModule : String → Except Unit EsTree
  importsOnDict : Nat → Except Unit (List Import)
  defsOnDict : Nat → Except Unit (List Definition)
  commentsOnObj : Nat → Except Unit (List Comment)
  regexImports : String → List Import
  regexComments : String → List Comment

/-- `'typescript' if file_path.endswith(('.ts', '.tsx')) else 'javascript'`. -/
def jsLanguageOf (path : String) : String :=
  if sEndsWith ".ts" path || sEndsWith ".tsx" path then "typescript"
  else "javascript"

/-- `JavaScriptParser._extract_imports` (returns `[]` without raising on a
non-`dict` tree). -/
def jsExtractImports (o : EsOracle) : EsTree → Except Unit (List Import)
  | .dict i => o.importsOnDict i
  | .obj _ => .ok []

/-- `JavaScriptParser._extract_definitions` (returns `[]` without raising
on a non-`dict` tree). -/
def jsExtractDefinitions (o : EsOracle) : EsTree → Except Unit (List Definition)
  | .dict i => o.defsOnDict i
  | .obj _ => .ok []

/-- `JavaScriptParser._extract_comments` (returns `[]` without raising on a
`dict` tree, which has no `comments` attribute). -/
def jsExtractComments (o : EsOracle) : EsTree → Except Unit (List Comment)
  | .dict _ => .ok []
  | .obj i => o.commentsOnObj i

/-- `JavaScriptParser.parse_file` on already-read content.  The `try`
block runs parse, import extraction, definition extraction and comment
extraction in order, assigning each result as it completes; `except
Exception` then overwrites `imports` and `comments` with the regex
fallback, leaving `definitions` at whatever had been assigned. -/
def jsParseFile (o : EsOracle) (path content : String) : ParsedFile :=
  let base : ParsedFile :=
    { file_path := path, language := jsLanguageOf path,
      raw_content := content, lines_of_code := countLines content }
  match o.parseModule content with
  | .error _ =>
    { base with imports := o.regexImports content,
                comments := o.regexComments content }
  | .ok tree =>
    match jsExtractImports o tree with
    | .error _ =>
      { base with imports := o.regexImports content,
                  comments := o.regexComments content }
    | .ok imps =>
      match jsExtractDefinitions o tree with
      | .error _ =>
        { base with imports := o.regexImports content,
                    comments := o.regexComments content }
      | .ok defs =>
        match jsExtractComments o tree with
        | .error _ =>
          { base with imports := o.regexImports content,
                      definitions := defs,
                      comments := o.regexComments content }
        | .ok cmts =>
          { base with imports := imps, definitions := defs,
                      comments := cmts }

/-! ## Concrete inputs used by the claims' witnesses and counterexamples -/

/-! ## Claim C1: the round-trip cycle scenario

`ast.parse` output for the two scenario files, modelled from the `ast`
module's documented behaviour: `from . import b` is an `ImportFrom` node
with `module = None` (the dot lives in the `level` field, which
`_extract_imports` never reads) and `return b.fb()` is a `Return` of a
`Call` whose func is an `Attribute` over a `Name`. -/

def aContent : String := "from . import b\n\ndef fa():\n    return b.fb()\n"

def bContent : String := "from . import a\n\ndef fb():\n    return a.fa()\n"

def aTree : PyStmtList :=
  .cons (.importFrom 1 none ["b"])
    (.cons (.functionDef 3 4 "fa" []
      (.cons (.ret (.call (.attr (.name "b") "fb") .nil)) .nil)) .nil)

def bTree : PyStmtList :=
  .cons (.importFrom 1 none ["a"])
    (.cons (.functionDef 3 4 "fb" []
      (.cons (.ret (.call (.attr (.name "a") "fa") .nil)) .nil)) .nil)

def scenarioAst : String → Option PyStmtList := fun s =>
  if s = aContent then some aTree
  else if s = bContent then some bTree
  else none

def scenarioFiles : List ParsedFile :=
  [pythonParseFile scenarioAst "proj/a.py" aContent,
   pythonParseFile scenarioAst "proj/b.py" bContent]

/-- The entry-point scenario graph used to witness C7. -/
def strandedG : DiGraph :=
  ⟨["main.py", "orphan.py", "helper.py"], [("main.py", "helper.py")]⟩

/-- A one-edge acyclic graph whose sole edge carries a stale `in_cycle =
True` attribute (as arises when a caller mutates or pre-annotates the graph
between `mark_cycles` runs). -/
def fgStale : FlaggedGraph :=
  ⟨⟨["a", "b"], [("a", "b")]⟩, [], [(("a", "b"), true)]⟩

/-- A two-node cycle used to witness C8. -/
def cycG : DiGraph := ⟨["x1", "y1"], [("x1", "y1"), ("y1", "x1")]⟩

/-- The count described by the claim: lines that are non-empty after
stripping whitespace and whose stripped form does not start with `#` or
`//`. -/
def specNonCommentLineCount (content : String) : Nat :=
  ((sSplit '\n' content).filter fun line =>
    !(sStrip line).data.isEmpty && !sStartsWith "#" (sStrip line) &&
      !sStartsWith "//" (sStrip line)).length

/-- A Python file that imports its own module name. -/
def pfSelfImport : ParsedFile :=
  { file_path := "r/a.py", language := "python",
    imports := [{ module := "a", names := ["a"], line := 1 }],
    lines_of_code := 1, raw_content := "import a" }

/-- Two files whose definitions produce one ordinary entity edge, used to
witness C2's entity half. -/
def pfCaller : ParsedFile :=
  { file_path := "r/a.py", language := "python",
    definitions :=
      [{ name := "fa", type := EntityType.function, line_start := 1,
         line_end := 2, calls := ["fb"] }] }

def pfCallee : ParsedFile :=
  { file_path := "r/b.py", language := "python",
    definitions :=
      [{ name := "fb", type := EntityType.function, line_start := 1,
         line_end := 2 }] }

/-! ## Basic lemmas about the string utilities -/

theorem isPfx_iff : ∀ (p s : List Char), isPfx p s = true ↔ ∃ r, s = p ++ r
  | [], s => by simp [isPfx]
  | _ :: _, [] => by simp [isPfx]
  | a :: as_, b :: bs => by
    constructor
    · intro h
      rw [isPfx, Bool.and_eq_true, decide_eq_true_eq] at h
      obtain ⟨r, hr⟩ := (isPfx_iff as_ bs).1 h.2
      exact ⟨r, by simp [hr, h.1]⟩
    · rintro ⟨r, hr⟩
      injection hr with h1 h2
      rw [isPfx, Bool.and_eq_true, decide_eq_true_eq]
      exact ⟨h1.symm, (isPfx_iff as_ bs).2 ⟨r, h2⟩⟩

theorem isSub_iff : ∀ (p s : List Char), isSub p s = true ↔ Occurs p s
  | p, [] => by
    show isPfx p [] = true ↔ Occurs p []
    rw [isPfx_iff]
    constructor
    · rintro ⟨r, hr⟩
      exact ⟨[], r, by simpa using hr⟩
    · rintro ⟨l, r, hr⟩
      refine ⟨r, ?_⟩
      rcases List.append_eq_nil.1 hr.symm with ⟨h1, h2⟩
      rcases List.append_eq_nil.1 h1 with ⟨h3, h4⟩
      simp [h2, h4]
  | p, c :: cs => by
    rw [isSub, Bool.or_eq_true, isPfx_iff, isSub_iff p cs]
    constructor
    · rintro (⟨r, hr⟩ | ⟨l, r, hr⟩)
      · exact ⟨[], r, by simpa using hr⟩
      · exact ⟨c :: l, r, by simp [hr]⟩
    · rintro ⟨l, r, hr⟩
      match l, hr with
      | [], hr => exact Or.inl ⟨r, by simpa using hr⟩
      | x :: xs, hr =>
        injection hr with h1 h2
        exact Or.inr ⟨xs, r, h2⟩

instance (p s : List Char) : Decidable (Occurs p s) :=
  decidable_of_iff (isSub p s = true) (isSub_iff p s)

/-! ## Claim C7: `find_stranded_nodes` -/

/-- C7: a node of the graph is returned by `find_stranded_nodes` iff its
in-degree is 0 and no configured entry-point fragment occurs as a substring
of its id. -/
theorem find_stranded_nodes_iff (g : DiGraph) (entry_points : List String)
    (n : String) (hn : n ∈ g.nodes) :
    n ∈ findStrandedNodes g entry_points ↔
      (g.inDegree n = 0 ∧ ∀ ep ∈ entry_points, ¬ Occurs ep.data n.data) := by
  unfold findStrandedNodes
  simp only [List.mem_filter, Bool.and_eq_true, decide_eq_true_eq,
    Bool.not_eq_true', List.any_eq_false, sContains]
  constructor
  · rintro ⟨-, hdeg, hall⟩
    refine ⟨hdeg, fun ep hep hocc => ?_⟩
    exact absurd ((isSub_iff ep.data n.data).2 hocc) (by simpa using hall ep hep)
  · rintro ⟨hdeg, hocc⟩
    refine ⟨hn, hdeg, fun ep hep => ?_⟩
    simpa using fun h => hocc ep hep ((isSub_iff ep.data n.data).1 h)

theorem find_stranded_nodes_iff_witness :
    "orphan.py" ∈ findStrandedNodes strandedG ["main"] ∧
      strandedG.inDegree "orphan.py" = 0 :=
  ⟨(find_stranded_nodes_iff strandedG ["main"] "orphan.py" (by decide)).mpr
      ⟨by decide, by decide⟩,
    by decide⟩

/-! ## Claim C4: `mark_cycles` -/

theorem flagLookup_flagSet {α : Type} [DecidableEq α]
    (l : List (α × Bool)) (k : α) (b : Bool) (k' : α) :
    flagLookup (flagSet l k b) k' = if k' = k then some b else flagLookup l k' := by
  induction l with
  | nil =>
    simp only [flagSet, flagLookup]
    rcases eq_or_ne k k' with h | h
    · subst h; simp
    · simp [h, Ne.symm h]
  | cons p rest ih =>
    rw [flagSet]
    by_cases hp : p.1 = k
    · rw [if_pos hp]
      rcases eq_or_ne k' k with h | h
      · subst h; simp [flagLookup, hp]
      · have hk : ¬(k = k') := fun hc => h hc.symm
        have hpk' : ¬(p.1 = k') := by rw [hp]; exact hk
        simp [flagLookup, hk, hpk', h]
    · rw [if_neg hp]
      by_cases hpk' : p.1 = k'
      · have h : ¬(k' = k) := fun hc => hp (by rw [hpk', hc])
        simp [flagLookup, h, hpk']
      · simp [flagLookup, hpk', ih]

theorem flagLookup_foldl_setTrue
    (ps : List (String × String)) (l : List ((String × String) × Bool))
    (k : String × String) :
    flagLookup (ps.foldl (fun l e => flagSet l e true) l) k =
      if k ∈ ps then some true else flagLookup l k := by
  induction ps generalizing l with
  | nil => simp
  | cons p ps ih =>
    rw [List.foldl_cons, ih]
    by_cases hmem : k ∈ ps
    · simp [hmem, List.mem_cons]
    · by_cases hk : k = p <;>
        simp [hmem, hk, flagLookup_flagSet, List.mem_cons]

theorem flagSet_of_lookup_eq {α : Type} [DecidableEq α] :
    ∀ (l : List (α × Bool)) (k : α) (b : Bool),
      flagLookup l k = some b → flagSet l k b = l := by
  intro l
  induction l with
  | nil => intro k b h; simp [flagLookup] at h
  | cons p rest ih =>
    intro k b h
    rw [flagSet]
    by_cases hp : p.1 = k
    · rw [flagLookup, if_pos hp] at h
      injection h with h
      rw [if_pos hp, ← hp, ← h]
    · rw [flagLookup, if_neg hp] at h
      rw [if_neg hp, ih k b h]

theorem foldl_setTrue_idem
    (ps : List (String × String)) (l : List ((String × String) × Bool))
    (h : ∀ k ∈ ps, flagLookup l k = some true) :
    ps.foldl (fun l e => flagSet l e true) l = l := by
  induction ps generalizing l with
  | nil => rfl
  | cons p ps ih =>
    rw [List.foldl_cons, flagSet_of_lookup_eq l p true (h p (by simp))]
    exact ih l fun k hk => h k (by simp [hk])

/-- C4 (amended): after `mark_cycles`, (a) the graph itself is untouched;
(b) every node's in-cycle flag is fully overwritten to "belongs to some
cycle returned by `find_circular_dependencies`"; (c) an edge's flag reads
`True` if the edge joins consecutive nodes of a returned cycle, and
otherwise reads whatever it was before — a pre-existing flag on an edge
that is on no current cycle is NOT cleared (edge flags are patched, not
recomputed); (d) the operation is idempotent. -/
theorem mark_cycles_flag_semantics (fg : FlaggedGraph) :
    (markCycles fg).graph = fg.graph ∧
    (markCycles fg).nodeFlag =
      fg.graph.nodes.map (fun n => (n, (cycleNodes fg.graph).contains n)) ∧
    (∀ e, flagLookup (markCycles fg).edgeFlag e =
      if e ∈ cycleEdgePairs fg.graph then some true else flagLookup fg.edgeFlag e) ∧
    markCycles (markCycles fg) = markCycles fg := by
  refine ⟨rfl, rfl, fun e => flagLookup_foldl_setTrue _ _ _, ?_⟩
  show FlaggedGraph.mk _ _ _ = FlaggedGraph.mk _ _ _
  congr 1
  refine foldl_setTrue_idem _ _ fun k hk => ?_
  show flagLookup
    ((cycleEdgePairs fg.graph).foldl (fun l e => flagSet l e true) fg.edgeFlag) k =
      some true
  rw [flagLookup_foldl_setTrue]
  exact if_pos hk

/-- C4 counterexample: `find_circular_dependencies` returns no cycle on
this graph, yet after `mark_cycles` the edge's in-cycle flag still reads
`True` — the edge flag is not overwritten from the fresh recomputation, so
the claimed "edge flag is true iff the edge joins consecutive nodes of a
returned cycle" fails. -/
theorem mark_cycles_stale_edge_flag :
    findCircularDependencies fgStale.graph = [] ∧
      flagLookup (markCycles fgStale).edgeFlag ("a", "b") = some true := by
  decide

/-! ## Claim C8: `find_circular_dependencies` returns exactly the
elementary cycles, self-loops removed, shortest first -/

theorem chainFrom_iff (g : DiGraph) (first : String) :
    ∀ (l : List String) (prev : String),
      chainFrom g first prev l = true ↔
        List.Chain (fun a b => g.hasEdge (a, b) = true) prev (l ++ [first])
  | [], prev => by simp [chainFrom, List.chain_cons]
  | y :: ys, prev => by
    rw [chainFrom, Bool.and_eq_true, chainFrom_iff g first ys y]
    simp [List.chain_cons]

theorem isCycleList_rotate_one (g : DiGraph) (c : List String)
    (h : isCycleList g c = true) : isCycleList g (c.rotate 1) = true := by
  match c with
  | [] => simp [isCycleList] at h
  | [x] => simpa [List.rotate_singleton] using h
  | x :: y :: ys =>
    rw [show (x :: y :: ys).rotate 1 = (y :: ys) ++ [x] by
      rw [List.rotate_cons_succ, List.rotate_zero]]
    have h' := (chainFrom_iff g x (y :: ys) x).1 h
    rw [List.cons_append, List.chain_cons] at h'
    show chainFrom g y y (ys ++ [x]) = true
    rw [chainFrom_iff g y (ys ++ [x]) y,
      show (ys ++ [x]) ++ [y] = ys ++ x :: [y] by simp, List.chain_split]
    exact ⟨h'.2, List.chain_cons.2 ⟨h'.1, List.Chain.nil⟩⟩

theorem isCycleList_rotate (g : DiGraph) (c : List String) (n : Nat)
    (h : isCycleList g c = true) : isCycleList g (c.rotate n) = true := by
  induction n with
  | zero => simpa [List.rotate_zero] using h
  | succ n ih =>
    rw [show c.rotate (n + 1) = (c.rotate n).rotate 1 from
      (List.rotate_rotate c n 1).symm]
    exact isCycleList_rotate_one g _ ih

theorem elemCycle_rotate (g : DiGraph) (c : List String) (n : Nat)
    (h : IsElemCycle g c) : IsElemCycle g (c.rotate n) := by
  obtain ⟨hne, hnd, hsub, hch⟩ := h
  have hp := List.rotate_perm c n
  refine ⟨?_, hp.nodup_iff.2 hnd, fun x hx => hsub x (hp.mem_iff.1 hx),
    isCycleList_rotate g c n hch⟩
  intro hc
  apply hne
  have hl := congrArg List.length hc
  rw [List.length_rotate] at hl
  exact List.length_eq_zero.1 hl

theorem mem_permsUpTo :
    ∀ (c : List String), c.Nodup →
      ∀ (pool : List String) (fuel : Nat), (∀ x ∈ c, x ∈ pool) →
        c.length ≤ fuel → c ∈ permsUpTo pool fuel := by
  intro c
  induction c with
  | nil =>
    intro _ pool fuel _ _
    match fuel with
    | 0 => simp [permsUpTo]
    | Nat.succ n => simp [permsUpTo]
  | cons x xs ih =>
    intro hnd pool fuel hsub hlen
    obtain ⟨hx, hxs⟩ := List.nodup_cons.1 hnd
    match fuel with
    | 0 => exact absurd hlen (by simp)
    | Nat.succ n =>
      rw [permsUpTo]
      refine List.mem_cons.2 (Or.inr ?_)
      rw [List.mem_flatMap]
      refine ⟨x, hsub x (by simp), ?_⟩
      rw [List.mem_map]
      refine ⟨xs, ih hxs (pool.erase x) n ?_ ?_, rfl⟩
      · intro y hy
        have hyne : y ≠ x := fun hc => hx (hc ▸ hy)
        exact (List.mem_erase_of_ne hyne).2 (hsub y (List.mem_cons.2 (Or.inr hy)))
      · exact Nat.succ_le_succ_iff.1 hlen

theorem exists_canonical_rotation (g : DiGraph) (c : List String)
    (h : IsElemCycle g c) :
    ∃ c', List.IsRotated c c' ∧ IsElemCycle g c' ∧ headIsMin g c' = true ∧
      c'.length = c.length := by
  obtain ⟨hne, hnd, hsub, hch⟩ := h
  obtain ⟨m, hm⟩ : ∃ m, c.argmin (fun x => g.nodes.indexOf x) = some m := by
    cases harg : c.argmin fun x => g.nodes.indexOf x with
    | some m => exact ⟨m, rfl⟩
    | none => exact absurd (List.argmin_eq_none.1 harg) hne
  have hmmem : m ∈ c := List.argmin_mem hm
  have hj : c.indexOf m < c.length := List.indexOf_lt_length.2 hmmem
  have hrotc : IsElemCycle g (c.rotate (c.indexOf m)) :=
    elemCycle_rotate g c _ ⟨hne, hnd, hsub, hch⟩
  have hlen : 0 < (c.rotate (c.indexOf m)).length := by
    rw [List.length_rotate]
    exact List.length_pos.2 hne
  have hget : (c.rotate (c.indexOf m)).get ⟨0, hlen⟩ = m := by
    rw [List.get_rotate]
    have hidx : ((⟨0, hlen⟩ : Fin (c.rotate (c.indexOf m)).length) + c.indexOf m) %
        c.length = c.indexOf m := by
      simp [Nat.mod_eq_of_lt hj]
    simp only [hidx]
    exact List.indexOf_get hj
  have headD_eq_get : ∀ (l : List String) (h : 0 < l.length),
      l.headD "" = l.get ⟨0, h⟩ := by
    intro l h
    match l with
    | [] => simp at h
    | a :: l => simp [List.headD]
  have hhead : (c.rotate (c.indexOf m)).headD "" = m :=
    (headD_eq_get _ hlen).trans hget
  refine ⟨c.rotate (c.indexOf m), ⟨_, rfl⟩, hrotc, ?_, List.length_rotate c _⟩
  simp only [headIsMin, List.all_eq_true]
  intro y hy
  rw [hhead]
  have hymem : y ∈ c := (List.rotate_perm c (c.indexOf m)).mem_iff.1 hy
  exact decide_eq_true (List.le_of_mem_argmin hymem hm)

/-- C8: `find_circular_dependencies` returns exactly the elementary cycles
of the graph (every returned list is an elementary cycle of length > 1,
and every elementary cycle of length > 1 is returned, up to rotation of the
starting node), with the length-1 self-loops discarded, ordered
shortest-first. -/
theorem find_circular_dependencies_spec (g : DiGraph) :
    (∀ c ∈ findCircularDependencies g, IsElemCycle g c ∧ 1 < c.length) ∧
    (∀ c, IsElemCycle g c → 1 < c.length →
      ∃ c', c' ∈ findCircularDependencies g ∧ List.IsRotated c c') ∧
    (findCircularDependencies g).Sorted lenLE := by
  refine ⟨?_, ?_, List.sorted_insertionSort lenLE _⟩
  · intro c hc
    rw [findCircularDependencies] at hc
    have hc' := (List.perm_insertionSort lenLE _).mem_iff.1 hc
    rw [List.mem_filter] at hc'
    obtain ⟨hmem, hlen⟩ := hc'
    rw [simpleCycles, List.mem_filter, Bool.and_eq_true] at hmem
    exact ⟨of_decide_eq_true hmem.2.1, of_decide_eq_true hlen⟩
  · intro c hcyc hlen
    obtain ⟨c', hrot, hcyc', hmin, hlenEq⟩ := exists_canonical_rotation g c hcyc
    refine ⟨c', ?_, hrot⟩
    rw [findCircularDependencies]
    apply (List.perm_insertionSort lenLE _).mem_iff.2
    rw [List.mem_filter]
    refine ⟨?_, by rw [hlenEq]; exact decide_eq_true hlen⟩
    rw [simpleCycles, List.mem_filter, Bool.and_eq_true]
    obtain ⟨hne', hnd', hsub', hch'⟩ := hcyc'
    refine ⟨?_, decide_eq_true ⟨hne', hnd', hsub', hch'⟩, hmin⟩
    exact mem_permsUpTo c' hnd' g.nodes g.nodes.length hsub'
      (List.Nodup.subperm hnd' hsub').length_le

theorem find_circular_dependencies_spec_witness :
    ∃ c', c' ∈ findCircularDependencies cycG ∧ List.IsRotated ["y1", "x1"] c' :=
  (find_circular_dependencies_spec cycG).2.1 ["y1", "x1"] (by decide) (by decide)

/-! ## Claim C9: Python syntax errors degrade to a raw-text-only record -/

/-- C9: for content on which `ast.parse` raises a `SyntaxError`, the Python
parser still returns a `ParsedFile` with the raw text and line count
populated and empty imports, definitions and comments (and, the embedding
being total, raises nothing). -/
theorem python_parse_syntax_error (astParse : String → Option PyStmtList)
    (path content : String) (h : astParse content = none) :
    pythonParseFile astParse path content =
      { file_path := path, language := "python", imports := [],
        definitions := [], comments := [],
        lines_of_code := countLines content, raw_content := content } := by
  unfold pythonParseFile
  rw [h]

theorem python_parse_syntax_error_witness :
    pythonParseFile (fun _ => none) "bad.py" "def f(:\n    x = (\n" =
      { file_path := "bad.py", language := "python", imports := [],
        definitions := [], comments := [],
        lines_of_code := countLines "def f(:\n    x = (\n",
        raw_content := "def f(:\n    x = (\n" } :=
  python_parse_syntax_error (fun _ => none) "bad.py" "def f(:\n    x = (\n" rfl

/-! ## Claim C3: error propagation out of `parse_file` -/

/-- C3 counterexample: `parse_file` on a path whose file cannot be opened
propagates the `open` error to the caller instead of returning a
`ParsedFile` — `_read_file` catches only `UnicodeDecodeError`, not
`OSError` (and `cli.py` indeed wraps `parse_file` in its own
`try/except`). -/
theorem parse_file_missing_file_raises :
    pythonParseFileFS (fun _ => FileOutcome.missing) (fun _ => none)
      "gone.py" = Except.error () := rfl

/-- C3 (amended): a decode failure is retried once with the Latin-1
fallback encoding (which decodes any byte string), so every file that can
be opened yields a `ParsedFile`; only a file that cannot be opened makes
`parse_file` raise. -/
theorem parse_file_ok_of_openable (fs : String → FileOutcome)
    (astParse : String → Option PyStmtList) (path : String)
    (h : fs path ≠ FileOutcome.missing) :
    (∃ pf, pythonParseFileFS fs astParse path = Except.ok pf) ∧
    (∀ latin, fs path = FileOutcome.utf8Error latin →
      pythonParseFileFS fs astParse path =
        Except.ok (pythonParseFile astParse path latin)) := by
  unfold pythonParseFileFS readFileModel
  cases hfs : fs path with
  | missing => exact absurd hfs h
  | utf8Error latin =>
    exact ⟨⟨pythonParseFile astParse path latin, rfl⟩,
      fun l hl => by rw [show l = latin from (by simpa [hfs] using hl : latin = l).symm]⟩
  | text s =>
    exact ⟨⟨pythonParseFile astParse path s, rfl⟩,
      fun l hl => by simp [hfs] at hl⟩

theorem parse_file_ok_of_openable_witness :
    (∃ pf, pythonParseFileFS (fun _ => FileOutcome.utf8Error "x = café")
      (fun _ => none) "latin.py" = Except.ok pf) ∧
    (∀ latin, (fun _ => FileOutcome.utf8Error "x = café") "latin.py" =
        FileOutcome.utf8Error latin →
      pythonParseFileFS (fun _ => FileOutcome.utf8Error "x = café")
        (fun _ => none) "latin.py" =
        Except.ok (pythonParseFile (fun _ => none) "latin.py" latin)) :=
  parse_file_ok_of_openable (fun _ => FileOutcome.utf8Error "x = café")
    (fun _ => none) "latin.py" (by simp)

/-! ## Claim C10: the meaning of `lines_of_code` -/

/-- C10: whatever `ast.parse` does, the `lines_of_code` the Python parser
records is the number of lines that are non-empty after stripping and do
not start with `#` or `//` — and a file of only blank and comment lines
records 0. -/
theorem lines_of_code_semantics (astParse : String → Option PyStmtList)
    (path content : String) :
    (pythonParseFile astParse path content).lines_of_code =
        specNonCommentLineCount content ∧
    ((∀ line ∈ sSplit '\n' content, (sStrip line).data.isEmpty = true ∨
        sStartsWith "#" (sStrip line) = true ∨
        sStartsWith "//" (sStrip line) = true) →
      (pythonParseFile astParse path content).lines_of_code = 0) := by
  have hloc : (pythonParseFile astParse path content).lines_of_code =
      countLines content := by
    unfold pythonParseFile
    cases astParse content <;> rfl
  have hcount : countLines content = specNonCommentLineCount content := by
    unfold countLines specNonCommentLineCount
    rw [List.filter_congr]
    intro line _
    cases (sStrip line).data.isEmpty <;>
      cases sStartsWith "#" (sStrip line) <;>
      cases sStartsWith "//" (sStrip line) <;> rfl
  refine ⟨hloc.trans hcount, fun hall => ?_⟩
  rw [hloc]
  unfold countLines
  rw [List.length_eq_zero, List.filter_eq_nil_iff]
  intro line hline
  rcases hall line hline with h | h | h <;> simp [h]

theorem lines_of_code_semantics_witness :
    (pythonParseFile (fun _ => none) "c.py" "# only\n   \n// note\n").lines_of_code
      = 0 :=
  (lines_of_code_semantics (fun _ => none) "c.py" "# only\n   \n// note\n").2
    (by decide)

/-- C1: evaluating the pipeline at the spec's round-trip scenario.  The
parser drops `from . import b` entirely (`ImportFrom` with `module = None`
fails the `if node.module:` check), so the file graph has its two nodes but
no edge at all; and the recorded call `b.fb` matches no key of the entity
name index (which holds the bare definition names `fa` and `fb`), so the
entity graph has no edge either.  Neither graph contains any cycle — the
claimed 2-cycles do not exist. -/
theorem round_trip_scenario_produces_no_cycles :
    (buildFileGraph "proj" scenarioFiles).nodes = ["a.py", "b.py"] ∧
    (buildFileGraph "proj" scenarioFiles).edges = [] ∧
    (buildEntityGraph "proj" scenarioFiles).nodes = ["a.py::fa", "b.py::fb"] ∧
    (buildEntityGraph "proj" scenarioFiles).edges = [] ∧
    findCircularDependencies (buildFileGraph "proj" scenarioFiles) = [] ∧
    findCircularDependencies (buildEntityGraph "proj" scenarioFiles) = [] := by
  decide

/-! ## Claim C2: self-edges -/

/-- C2 counterexample: `build_file_graph` adds a self-edge — the edge loop
has no `source != target` guard, and the import `a` of file `a.py`
resolves (via the module index) to `a.py` itself. -/
theorem build_file_graph_self_edge :
    ("a.py", "a.py") ∈ (buildFileGraph "r" [pfSelfImport]).edges := by decide

theorem foldl_preserves {β α : Type} (P : β → Prop) (f : β → α → β)
    (hstep : ∀ b a, P b → P (f b a)) :
    ∀ (l : List α) (b : β), P b → P (l.foldl f b) := by
  intro l
  induction l with
  | nil => exact fun b hb => hb
  | cons x xs ih => exact fun b hb => ih (f b x) (hstep b x hb)

theorem edges_addNode (g : DiGraph) (n : String) :
    (g.addNode n).edges = g.edges := by
  unfold DiGraph.addNode
  split <;> rfl

theorem edges_addEdge (g : DiGraph) (a b : String) :
    (g.addEdge a b).edges =
      if g.hasEdge (a, b) = true then g.edges else g.edges ++ [(a, b)] := by
  simp only [DiGraph.addEdge, DiGraph.hasEdge, edges_addNode]
  split <;> simp [edges_addNode]

theorem mem_edges_addEdge (g : DiGraph) (a b : String) (e : String × String)
    (he : e ∈ (g.addEdge a b).edges) : e ∈ g.edges ∨ e = (a, b) := by
  rw [edges_addEdge] at he
  split at he
  · exact Or.inl he
  · rw [List.mem_append] at he
    rcases he with he | he
    · exact Or.inl he
    · exact Or.inr (by simpa using he)

/-- C2 (amended): `build_entity_graph` never adds a self-edge — every edge
it emits passes the `source_id != target_id` guard (this half of the claim
holds for every parsed-file collection; the file-graph half is refuted by
`build_file_graph_self_edge`). -/
theorem build_entity_graph_no_self_edges (root : String)
    (pfs : List ParsedFile) (e : String × String)
    (he : e ∈ (buildEntityGraph root pfs).edges) : e.1 ≠ e.2 := by
  revert e he
  suffices h : ∀ e ∈ (buildEntityGraph root pfs).edges, e.1 ≠ e.2 by
    exact fun e he => h e he
  simp only [buildEntityGraph]
  refine foldl_preserves (fun g : DiGraph => ∀ e ∈ g.edges, e.1 ≠ e.2) _ ?_ _ _ ?_
  · intro g pf hg
    refine foldl_preserves (fun g : DiGraph => ∀ e ∈ g.edges, e.1 ≠ e.2) _ ?_ _ _ hg
    intro g d hgd
    refine foldl_preserves (fun g : DiGraph => ∀ e ∈ g.edges, e.1 ≠ e.2) _ ?_ _ _ hgd
    intro g call hgc
    cases hmap : dictGet (entityMapOf root pfs) call with
    | none => simpa [hmap] using hgc
    | some tgt =>
      simp only [hmap]
      split
      · rename_i hcond
        rw [Bool.and_eq_true, decide_eq_true_eq] at hcond
        intro e he
        rcases mem_edges_addEdge _ _ _ e he with he' | he'
        · exact hgc e he'
        · rw [he']
          exact hcond.2
      · exact hgc
  · -- the node-building pass adds no edge at all
    have hnil : (pfs.foldl
        (fun g pf =>
          pf.definitions.foldl
            (fun g d => g.addNode (entityId (getRelativePath root pf.file_path) d)) g)
        DiGraph.empty).edges = [] := by
      apply foldl_preserves (fun g : DiGraph => g.edges = ([] : List (String × String)))
      · intro g pf hg
        apply foldl_preserves (fun g : DiGraph => g.edges = ([] : List (String × String)))
        · intro g d hgd
          rw [edges_addNode]
          exact hgd
        · exact hg
      · rfl
    intro e he
    rw [hnil] at he
    exact absurd he (List.not_mem_nil e)

theorem build_entity_graph_no_self_edges_witness :
    ("a.py::fa", "b.py::fb") ∈
        (buildEntityGraph "r" [pfCaller, pfCallee]).edges ∧
      "a.py::fa" ≠ "b.py::fb" :=
  ⟨by decide,
    build_entity_graph_no_self_edges "r" [pfCaller, pfCallee]
      ("a.py::fa", "b.py::fb") (by decide)⟩

/-! ## Claim C6: build calls and the shared mutable graph object -/

/-- C6 counterexample: the builder returns the same mutable graph object it
stores, so a graph returned by an earlier `build_file_graph` call IS
affected by a later call — after the second build, the stored object (which
the first caller's reference aliases, second conjunct) no longer holds the
first build's content. -/
theorem builder_reuses_graph_object :
    ((buildFileGraphB ((buildFileGraphB (GraphBuilderS.init "r")
          [pfCaller]).1) []).1.file_graph ≠
        (buildFileGraphB (GraphBuilderS.init "r") [pfCaller]).2) ∧
      ((buildFileGraphB (GraphBuilderS.init "r") [pfCaller]).1.file_graph =
        (buildFileGraphB (GraphBuilderS.init "r") [pfCaller]).2) := by
  decide

/-- C6 (amended): each build call first clears the stored graph and then
rebuilds it from the parsed files and the root directory alone, so the
CONTENT of the returned graph carries nothing over from earlier builds or
any other builder state — only the graph object's identity is shared. -/
theorem build_graph_content_fresh (b b' : GraphBuilderS)
    (pfs : List ParsedFile) (h : b.root_dir = b'.root_dir) :
    (buildFileGraphB b pfs).2 = (buildFileGraphB b' pfs).2 ∧
    (buildEntityGraphB b pfs).2 = (buildEntityGraphB b' pfs).2 := by
  unfold buildFileGraphB buildEntityGraphB
  rw [h]
  exact ⟨rfl, rfl⟩

theorem build_graph_content_fresh_witness :
    (buildFileGraphB ⟨"r", ⟨["stale"], [("stale", "stale")]⟩, ⟨["s2"], []⟩⟩
        [pfCaller]).2 =
      (buildFileGraphB (GraphBuilderS.init "r") [pfCaller]).2 :=
  (build_graph_content_fresh ⟨"r", ⟨["stale"], [("stale", "stale")]⟩, ⟨["s2"], []⟩⟩
    (GraphBuilderS.init "r") [pfCaller] rfl).1

/-- C5: the `ParsedFile` the JS/TS parser returns holds either only
primary results (parse and all three extractions succeeded, and the
record carries exactly their values) or only fallback results (regex
imports, regex comments, and no definitions); the two are never mixed.
The delicate case — a comment-extraction failure after definitions were
already assigned — cannot mix either, because comment extraction can only
fail on a non-`dict` tree, on which definition extraction had necessarily
produced `[]`. -/
theorem js_parse_file_never_mixes (o : EsOracle) (path content : String) :
    (∃ t imps defs cmts,
      o.parseModule content = Except.ok t ∧
      jsExtractImports o t = Except.ok imps ∧
      jsExtractDefinitions o t = Except.ok defs ∧
      jsExtractComments o t = Except.ok cmts ∧
      jsParseFile o path content =
        { file_path := path, language := jsLanguageOf path,
          raw_content := content, lines_of_code := countLines content,
          imports := imps, definitions := defs, comments := cmts }) ∨
    jsParseFile o path content =
      { file_path := path, language := jsLanguageOf path,
        raw_content := content, lines_of_code := countLines content,
        imports := o.regexImports content, definitions := [],
        comments := o.regexComments content } := by
  cases hp : o.parseModule content with
  | error e => exact Or.inr (by simp [jsParseFile, hp])
  | ok t =>
    cases t with
    | dict i =>
      cases hi : o.importsOnDict i with
      | error e =>
        exact Or.inr (by simp [jsParseFile, hp, hi, jsExtractImports])
      | ok imps =>
        cases hd : o.defsOnDict i with
        | error e =>
          exact Or.inr (by
            simp [jsParseFile, hp, hi, hd, jsExtractImports,
              jsExtractDefinitions])
        | ok defs =>
          exact Or.inl ⟨EsTree.dict i, imps, defs, [], rfl, hi, hd, rfl, by
            simp [jsParseFile, hp, hi, hd, jsExtractImports,
              jsExtractDefinitions, jsExtractComments]⟩
    | obj i =>
      cases hc : o.commentsOnObj i with
      | error e =>
        exact Or.inr (by
          simp [jsParseFile, hp, hc, jsExtractImports, jsExtractDefinitions,
            jsExtractComments])
      | ok cmts =>
        exact Or.inl ⟨EsTree.obj i, [], [], cmts, rfl, rfl, rfl, hc, by
          simp [jsParseFile, hp, hc, jsExtractImports, jsExtractDefinitions,
            jsExtractComments]⟩
